import Mathlib

/-!
Verification of the SATURN automation repository.

Shallow embedding of the two services:

* `src/services/sending_retail.py` — the FIFO stock batcher
  (`prepare_invoices`) and the submit wrapper
  (`run_retail_write_off_service`).
* `src/services/reciving_inv.py` — the delivery notifier
  (`InvoiceService.run`).

Modelling conventions:

* A pandas stock row becomes `StockRow`.  Dynamic cells that the code
  coerces are modelled by the coercion result: `countPu : Option ℚ` is
  the value of `pd.to_numeric(_, errors="coerce")` (`none` = `NaN`,
  i.e. a non-numeric cell), `validFrom : Option Int` is the value of
  `pd.to_datetime(_, utc=True, errors="coerce")` as a comparable
  instant (`none` = `NaT`, an unparseable timestamp).  Python floats
  are modelled as exact rationals.
* The group keys `batchId / patId / warehouseId / contractorId` are
  integers (identifiers coming from the API).
* `pandas.sort_values` with several keys is a stable lexicographic
  sort whose default `na_position='last'` makes `NaT` compare greater
  than every parsed instant; `fifoLe` encodes exactly that key.
* `groupby(group_columns)` (default `sort=True`) emits one group per
  distinct key, ordered by the group key tuple ascending; aggregation
  is `countPu: sum`, `validFrom: min` (skipping `NaT`).  The
  descriptive name columns (`warehouseName`, …) are aggregated by the
  code but never read afterwards, so they are not carried.
* The `while remaining_quantity > 0` loop of `prepare_invoices` is a
  genuine while loop; it is embedded with explicit fuel
  (`placeLoop`), `none` meaning the loop did not finish within the
  fuel.  Fuel 2 per group is exact: `placeLoop_succ_pos` shows one
  iteration settles each group whatever fuel remains, and
  `placeLoop_diverge` shows the loop runs forever (`none` for every
  fuel) when `items_per_invoice ≤ 0`.
* The process-wide `InvoiceCounter` is made explicit: `prepare_invoices`
  takes the current counter value `ctr0` and document numbers are the
  successive counter values (the run-date text around the sequence
  number is runtime environment, not modelled).
-/

/-- Kernel-computable rational addition; proved equal to `+` in
`qadd_eq_add` (the library `Rat.add` does not reduce definitionally). -/
def qadd (a b : ℚ) : ℚ :=
  mkRat (a.num * (b.den : Int) + b.num * (a.den : Int)) (a.den * b.den)

/-- Kernel-computable list sum over ℚ, used inside executable
definitions; `qsum_eq_sum` bridges to `List.sum`. -/
def qsum (l : List ℚ) : ℚ := l.foldr qadd 0

/-- One warehouse stock record (a row of the `getTotals()` dataframe),
after the two cell coercions performed by `prepare_invoices`:
`countPu` is the `pd.to_numeric(..., errors="coerce")` value (`none` =
non-numeric → `NaN`), `validFrom` the `pd.to_datetime(...,
errors="coerce")` instant (`none` = `NaT`). -/
structure StockRow where
  countPu : Option ℚ
  batchId : Int
  patId : Int
  warehouseId : Int
  contractorId : Int
  validFrom : Option Int
  note : Option String
deriving DecidableEq, Repr

/-- Python `str.lower` on the characters that matter here: ASCII and
the Cyrillic А-Я / Ё block used by the write-off marker. -/
def pyLowerChar (c : Char) : Char :=
  if 0x410 ≤ c.toNat ∧ c.toNat ≤ 0x42F then Char.ofNat (c.toNat + 0x20)
  else if c.toNat = 0x401 then Char.ofNat 0x451
  else c.toLower

def pyLower (s : String) : List Char := s.data.map pyLowerChar

/-- Does `pat` occur at the head of `l`? -/
def leadsWith [DecidableEq α] : List α → List α → Bool
  | [], _ => true
  | _ :: _, [] => false
  | a :: as, b :: bs => decide (a = b) && leadsWith as bs

/-- Does `pat` occur as a contiguous segment of the list? -/
def hasSegment [DecidableEq α] (pat : List α) : List α → Bool
  | [] => pat.isEmpty
  | a :: rest => leadsWith pat (a :: rest) || hasSegment pat rest

/-- The write-off marker filtered out of the notes (source line 143). -/
def writeOffMarker : String := "списание со склада"

/-- `df['note'].astype(str)`: a missing note renders as the string
"nan", which never matches the marker. -/
def noteStr : Option String → String
  | none => "nan"
  | some s => s

/-- Case-insensitive substring test
`str.contains('списание со склада', case=False)`. -/
def containsMarker (s : String) : Bool :=
  hasSegment (pyLower writeOffMarker) (pyLower s)

/-- `df_filtered['countPu'] > 0` — `NaN > 0` is false in pandas. -/
def quantityPos (r : StockRow) : Bool :=
  match r.countPu with
  | some q => decide (0 < q)
  | none => false

/-- The row filter of `prepare_invoices` (source lines 135-144): keep
rows with a positive numeric quantity whose note does not contain the
write-off marker.  The two successive dataframe filters commute, so
they are one predicate. -/
def rowKeep (r : StockRow) : Bool :=
  quantityPos r && ! containsMarker (noteStr r.note)

/-- Stable insertion into a list sorted by `le` (a new element goes
after every element `y` with `le y x`). -/
def insLe (le : α → α → Bool) (x : α) : List α → List α
  | [] => [x]
  | y :: ys => if le y x then y :: insLe le x ys else x :: y :: ys

/-- Stable sort by the boolean relation `le`; models
`DataFrame.sort_values` (stable for multi-key sorts). -/
def sortLe (le : α → α → Bool) : List α → List α
  | [] => []
  | x :: xs => insLe le x (sortLe le xs)

/-- Rank of the `validFrom` cell under `na_position='last'`: parsed
instants first, `NaT` last. -/
def vfRank (r : StockRow) : Nat :=
  match r.validFrom with
  | none => 1
  | some _ => 0

def vfVal (r : StockRow) : Int :=
  match r.validFrom with
  | none => 0
  | some t => t

/-- The `sort_values(['validFrom', 'batchId'])` comparison (source
line 156): by parsed instant with `NaT` greatest, ties broken by
`batchId`. -/
def fifoLe (a b : StockRow) : Bool :=
  decide (vfRank a < vfRank b ∨ (vfRank a = vfRank b ∧
    (vfVal a < vfVal b ∨ (vfVal a = vfVal b ∧ a.batchId ≤ b.batchId))))

/-- The `groupby` key tuple `['batchId', 'patId', 'warehouseId',
'contractorId']` (source line 160). -/
structure GKey where
  batchId : Int
  patId : Int
  warehouseId : Int
  contractorId : Int
deriving DecidableEq, Repr

def groupKey (r : StockRow) : GKey :=
  ⟨r.batchId, r.patId, r.warehouseId, r.contractorId⟩

/-- Ascending lexicographic order on the group key tuple — the order
in which `groupby(..., sort=True)` (the pandas default) emits the
groups. -/
def keyLe (k l : GKey) : Bool :=
  decide (k.batchId < l.batchId ∨ (k.batchId = l.batchId ∧
    (k.patId < l.patId ∨ (k.patId = l.patId ∧
      (k.warehouseId < l.warehouseId ∨ (k.warehouseId = l.warehouseId ∧
        k.contractorId ≤ l.contractorId))))))

/-- The rows of one group, in dataframe order. -/
def groupRows (rows : List StockRow) (k : GKey) : List StockRow :=
  rows.filter (fun r => decide (groupKey r = k))

def qtyOf (r : StockRow) : ℚ := r.countPu.getD 0

/-- Aggregation `'countPu': 'sum'`. -/
def aggQuantity (rs : List StockRow) : ℚ := qsum (rs.map qtyOf)

/-- Aggregation `'validFrom': 'min'` — pandas `min` skips `NaT`; the
result is `NaT` only when every value is. -/
def aggValidFrom (rs : List StockRow) : Option Int :=
  (rs.filterMap (fun r => r.validFrom)).min?

/-- One aggregated batch group (a row of `batch_groups`). -/
structure BatchGroup where
  batchId : Int
  patId : Int
  warehouseId : Int
  contractorId : Int
  countPu : ℚ
  validFrom : Option Int
deriving DecidableEq, Repr

def mkGroup (rows : List StockRow) (k : GKey) : BatchGroup :=
  ⟨k.batchId, k.patId, k.warehouseId, k.contractorId,
    aggQuantity (groupRows rows k), aggValidFrom (groupRows rows k)⟩

/-- The distinct group keys, in the ascending order `groupby` uses. -/
def groupKeys (rows : List StockRow) : List GKey :=
  sortLe keyLe (rows.map groupKey).dedup

/-- `df_sorted.groupby(group_columns).agg(...).reset_index()`
(source line 175). -/
def buildGroups (rows : List StockRow) : List BatchGroup :=
  (groupKeys rows).map (mkGroup rows)

/-- One entry of a `tbrDtoList`: `{'batchId': ..., 'countPuSent': ...}`. -/
structure InvoiceLine where
  batchId : Int
  countPuSent : ℚ
deriving DecidableEq, Repr

/-- One invoice payload produced by `create_invoice_payload`: the
document sequence number (the run-local `InvoiceCounter` value), the
header ids taken from the triggering group row, and the ordered line
list. -/
structure InvoiceSpec where
  docNum : Nat
  receiverContractorId : Int
  sourceWarehouseId : Int
  lines : List InvoiceLine
deriving DecidableEq, Repr

instance : Inhabited InvoiceSpec := ⟨⟨0, 0, 0, []⟩⟩

def mkSpec (ctr : Nat) (g : BatchGroup) (items : List InvoiceLine) : InvoiceSpec :=
  ⟨ctr, g.contractorId, g.warehouseId, items⟩

/-- The `while remaining_quantity > 0` loop body (source lines
187-208) with explicit fuel; `none` = the loop did not finish within
`fuel` iterations.  State: accumulated `invoices`, the open
`current_items`, and the `InvoiceCounter` value. -/
def placeLoop (cap : Int) (g : BatchGroup) (fuel : Nat) (remaining : ℚ)
    (invoices : List InvoiceSpec) (current : List InvoiceLine) (ctr : Nat) :
    Option (List InvoiceSpec × List InvoiceLine × Nat) :=
  if ¬ 0 < remaining then some (invoices, current, ctr)
  else
    match fuel with
    | 0 => none
    | fuel + 1 =>
      let available : Int := cap - current.length
      if 0 < available then
        let current2 := current ++ [⟨g.batchId, remaining⟩]
        if cap ≤ (current2.length : Int) then
          placeLoop cap g fuel 0 (invoices ++ [mkSpec ctr g current2]) [] (ctr + 1)
        else
          placeLoop cap g fuel 0 invoices current2 ctr
      else
        if current.isEmpty then
          placeLoop cap g fuel remaining invoices current ctr
        else
          placeLoop cap g fuel remaining (invoices ++ [mkSpec ctr g current]) [] (ctr + 1)

/-- The `for _, row in batch_groups.iterrows()` walk (source line
183), each group handled by its `while` loop with fuel 2 (exact:
see `placeLoop_succ_pos` and `placeLoop_diverge`). -/
def processGroups (cap : Int) :
    List BatchGroup → List InvoiceSpec × List InvoiceLine × Nat →
    Option (List InvoiceSpec × List InvoiceLine × Nat)
  | [], st => some st
  | g :: rest, (invoices, current, ctr) =>
    match placeLoop cap g 2 g.countPu invoices current ctr with
    | none => none
    | some st' => processGroups cap rest st'

/-- Python list slice `invoices[:n]` for an arbitrary (possibly
negative) `n`. -/
def pySlice (n : Int) (l : List α) : List α :=
  if 0 ≤ n then l.take n.toNat else l.take ((l.length : Int) + n).toNat

/-- `if max_invoices: invoices = invoices[:max_invoices]` (source
lines 215-216).  `None` and `0` are falsy, so they mean no
truncation. -/
def applyLimit (maxInv : Option Int) (l : List InvoiceSpec) : List InvoiceSpec :=
  match maxInv with
  | none => l
  | some n => if n ≠ 0 then pySlice n l else l

def dummyGroup : BatchGroup := ⟨0, 0, 0, 0, 0, none⟩

/-- The filtered dataframe `df_filtered` (source lines 132-144). -/
def dfFiltered (df : List StockRow) : List StockRow := df.filter rowKeep

/-- The FIFO-sorted dataframe `df_sorted` (source line 156). -/
def dfSorted (df : List StockRow) : List StockRow := sortLe fifoLe (dfFiltered df)

/-- `batch_groups` for an input dataframe. -/
def batchGroupsOf (df : List StockRow) : List BatchGroup := buildGroups (dfSorted df)

/-- `prepare_invoices(df, items_per_invoice, max_invoices)` (source
lines 120-219).  `ctr0` is the `InvoiceCounter` value at entry (the
counter is process-global; `run_retail_write_off_service` resets it
to 1).  `none` = the inner placement loop did not terminate.  The
trailing partial invoice takes its header from `batch_groups.iloc[-1]`
(source line 212); the `dummyGroup` default is unreachable because a
non-empty `current_items` forces a non-empty `batch_groups`. -/
def prepare_invoices (ctr0 : Nat) (df : List StockRow) (items_per_invoice : Int)
    (max_invoices : Option Int) : Option (List InvoiceSpec) :=
  if (dfFiltered df).isEmpty then some []
  else
    match processGroups items_per_invoice (batchGroupsOf df) ([], [], ctr0) with
    | none => none
    | some (invoices, current, ctr) =>
      let invoices :=
        if current.isEmpty then invoices
        else invoices ++ [mkSpec ctr ((batchGroupsOf df).getLastD dummyGroup) current]
      some (applyLimit max_invoices invoices)

def groupLine (g : BatchGroup) : InvoiceLine := ⟨g.batchId, g.countPu⟩

/-- The line-cap shape of an invoice list: every invoice has at most
`cap` lines, and every invoice except possibly the final one has
exactly `cap` lines. -/
def packProp (cap : Int) (specs : List InvoiceSpec) : Prop :=
  (∀ s ∈ specs, (s.lines.length : Int) ≤ cap) ∧
  (∀ i, i + 1 < specs.length → (((specs.getD i default).lines.length : Int) = cap))

/-- Total quantity carried for batch id `b` by the produced invoice
lines (summed over every line of every invoice in the list). -/
def lineBatchSum (b : Int) (specs : List InvoiceSpec) : ℚ :=
  qsum (((specs.map (fun s => s.lines)).flatten.filter
    (fun ln => decide (ln.batchId = b))).map (fun ln => ln.countPuSent))

/-- Total filtered input quantity for batch id `b` (sum of `countPu`
over the rows of `df_filtered` with that batch id). -/
def rowBatchSum (b : Int) (df : List StockRow) : ℚ :=
  qsum (((dfFiltered df).filter (fun r => decide (r.batchId = b))).map qtyOf)

/-- Outcome of the create-draft POST for one invoice: a
`requests.exceptions.RequestException`, a 2xx response missing
`resData.id`, a 2xx response with the new invoice id, or any other
exception. -/
inductive CreateOutcome where
  | reqExc (msg : String)
  | badResp
  | ok (id : Int)
  | otherExc (msg : String)

/-- Outcome of the send-to-retail POST for one invoice. -/
inductive RetailOutcome where
  | reqExc (msg : String)
  | ok
  | otherExc (msg : String)

/-- The external API as an oracle: responses to the create / retail
calls for the invoice at each position. -/
structure Net where
  create : Nat → CreateOutcome
  retail : Nat → RetailOutcome

/-- One outbound HTTP POST issued by the live loop. -/
inductive Request where
  | create (specIdx : Nat)
  | retail (invoiceId : Int)
deriving DecidableEq, Repr

inductive SubStatus where
  | created_and_sent
  | network_error
  | error
deriving DecidableEq, Repr

/-- One entry of the `results` list of
`run_retail_write_off_service`. -/
structure SubmissionResult where
  docNum : Nat
  status : SubStatus
  invoice_id : Option Int
  items_count : Option Nat
  error : Option String
deriving DecidableEq, Repr

/-- The body of the live submission loop (source lines 271-333) for
one invoice: the create POST, the response checks, the retail POST,
and the recorded `SubmissionResult`; also returns the POSTs issued. -/
def submitOne (net : Net) (idx : Nat) (inv : InvoiceSpec) :
    SubmissionResult × List Request :=
  match net.create idx with
  | CreateOutcome.reqExc msg =>
    (⟨inv.docNum, SubStatus.network_error, none, none,
      some (String.append "HTTP error: " msg)⟩, [Request.create idx])
  | CreateOutcome.otherExc msg =>
    (⟨inv.docNum, SubStatus.error, none, none, some msg⟩, [Request.create idx])
  | CreateOutcome.badResp =>
    (⟨inv.docNum, SubStatus.error, none, none,
      some "Invalid API response format"⟩, [Request.create idx])
  | CreateOutcome.ok invoiceId =>
    match net.retail idx with
    | RetailOutcome.reqExc msg =>
      (⟨inv.docNum, SubStatus.network_error, none, none,
        some (String.append "HTTP error: " msg)⟩,
       [Request.create idx, Request.retail invoiceId])
    | RetailOutcome.otherExc msg =>
      (⟨inv.docNum, SubStatus.error, none, none, some msg⟩,
       [Request.create idx, Request.retail invoiceId])
    | RetailOutcome.ok =>
      (⟨inv.docNum, SubStatus.created_and_sent, some invoiceId,
        some inv.lines.length, none⟩,
       [Request.create idx, Request.retail invoiceId])

def submitAll (net : Net) (invs : List InvoiceSpec) :
    List SubmissionResult × List Request :=
  ((invs.enum.map (fun p => submitOne net p.1 p.2)).map Prod.fst,
   ((invs.enum.map (fun p => submitOne net p.1 p.2)).map Prod.snd).flatten)

/-- `run_retail_write_off_service` (source lines 222-360): reset the
counter, prepare the invoices, report only (dry run) or create+send
each one.  The returned triple is (invoices, results, issued POSTs);
`none` = `prepare_invoices` did not terminate. -/
def run_retail_write_off_service (df : List StockRow) (items_per_invoice : Int)
    (max_invoices : Option Int) (execute : Bool) (net : Net) :
    Option (List InvoiceSpec × List SubmissionResult × List Request) :=
  match prepare_invoices 1 df items_per_invoice max_invoices with
  | none => none
  | some invoices =>
    if invoices.isEmpty then some ([], [], [])
    else if execute then
      some (invoices, (submitAll net invoices).1, (submitAll net invoices).2)
    else some (invoices, [], [])

/-- A dynamically-typed dataframe cell of the delivery notifier:
missing (`NaN`/`None`), a number, or a string. -/
inductive Cell where
  | na
  | num (n : Int)
  | str (s : String)
deriving DecidableEq, Repr

/-- `pd.isna` on a cell. -/
def Cell.isna : Cell → Bool
  | Cell.na => true
  | _ => false

/-- The Python test `dest_wh in (0, '0')`. -/
def Cell.isZeroLike : Cell → Bool
  | Cell.num n => decide (n = 0)
  | Cell.str s => decide (s = "0")
  | Cell.na => false

def digitsVal (cs : List Char) : Nat :=
  cs.foldl (fun a c => a * 10 + (c.toNat - 48)) 0

def digitsToNat (cs : List Char) : Option Nat :=
  if cs ≠ [] ∧ cs.all Char.isDigit then some (digitsVal cs) else none

/-- Python `int(str)`: optional surrounding whitespace, optional
sign, then a non-empty digit run; anything else raises
(`none`). -/
def parsePyInt (s : String) : Option Int :=
  match ((s.data.dropWhile Char.isWhitespace).reverse.dropWhile Char.isWhitespace).reverse with
  | [] => none
  | c :: rest =>
    if c = Char.ofNat 45 then (digitsToNat rest).map (fun n => -(n : Int))
    else if c = Char.ofNat 43 then (digitsToNat rest).map (fun n => (n : Int))
    else (digitsToNat (c :: rest)).map (fun n => (n : Int))

/-- Python `int(cell)`: raises (`none`) on `NaN` and on non-numeric
strings. -/
def pyIntOfCell : Cell → Option Int
  | Cell.na => none
  | Cell.num n => some n
  | Cell.str s => parsePyInt s

/-- One fetched invoice record as used by `InvoiceService.run`:
`row.get("id")` and `row.get("destinationWarehouseId")`. -/
structure DeliveryRow where
  id : Cell
  destinationWarehouseId : Cell
deriving DecidableEq, Repr

/-- Response of one notify POST: an exception from `requests.post`,
or an HTTP status code. -/
inductive NotifyNet where
  | exc (msg : String)
  | status (code : Nat)

/-- State threaded through `InvoiceService.run`: the three counters,
the notify POSTs issued so far (invoice id cell, warehouse id sent),
and the number of `notify_delivered` invocations. -/
structure RunSummary where
  success_count : Nat
  error_count : Nat
  skipped_count : Nat
  requests : List (Cell × Int)
  attempts : Nat
deriving DecidableEq, Repr

/-- The fallback destination warehouse id substituted at source line
120. -/
def fallbackWarehouseId : Int := 1085300

/-- One iteration of the loop in `InvoiceService.run` (source lines
109-135): substitute the fallback warehouse id when the invoice id or
the destination id is missing or the destination id is 0/'0', then
attempt `notify_delivered`; `int(dest_wh)` failing inside the payload
construction raises before the POST and is counted as an error. -/
def notifyStep (st : RunSummary) (r : DeliveryRow) (resp : NotifyNet) : RunSummary :=
  match pyIntOfCell
      (if r.id.isna || r.destinationWarehouseId.isna || r.destinationWarehouseId.isZeroLike
       then Cell.num fallbackWarehouseId else r.destinationWarehouseId) with
  | none =>
    { st with attempts := st.attempts + 1, error_count := st.error_count + 1 }
  | some w =>
    let st2 := { st with attempts := st.attempts + 1,
                         requests := st.requests ++ [(r.id, w)] }
    match resp with
    | NotifyNet.exc _ => { st2 with error_count := st2.error_count + 1 }
    | NotifyNet.status c =>
      if c = 200 then { st2 with success_count := st2.success_count + 1 }
      else { st2 with error_count := st2.error_count + 1 }

def runFrom (net : Nat → NotifyNet) : List DeliveryRow → Nat → RunSummary → RunSummary
  | [], _, st => st
  | r :: rs, i, st => runFrom net rs (i + 1) (notifyStep st r (net i))

/-- `InvoiceService.run` (source lines 106-141) on an already fetched
invoice list, with the per-record POST responses given by `net`. -/
def InvoiceService.run (rows : List DeliveryRow) (net : Nat → NotifyNet) : RunSummary :=
  runFrom net rows 0 ⟨0, 0, 0, [], 0⟩

def mkStockRow (q : ℚ) (b : Int) (vf : Option Int) : StockRow :=
  ⟨some q, b, 1, 1, 9, vf, none⟩

/-- The worked example of the spec: 5 rows, batch id 7, quantities
3,2,5,1,4, same validity date. -/
def exampleDfC1 : List StockRow :=
  [mkStockRow 3 7 (some 100), mkStockRow 2 7 (some 100), mkStockRow 5 7 (some 100),
   mkStockRow 1 7 (some 100), mkStockRow 4 7 (some 100)]

def exampleDfC2 : List StockRow :=
  [mkStockRow 1 1 (some 1), mkStockRow 1 2 (some 2), mkStockRow 1 3 (some 3)]

/-- Batch 2 has the earlier validity date but the later batch id. -/
def fifoDfC3 : List StockRow := [mkStockRow 1 2 (some 5), mkStockRow 1 1 (some 10)]

/-- An unparseable-timestamp row listed first, then a parsed one. -/
def natDfC4 : List StockRow := [mkStockRow 1 1 none, mkStockRow 1 2 (some 5)]

def natDfC4W : List StockRow := [mkStockRow 1 1 none, mkStockRow 1 2 none]

def dfC5 : List StockRow := [mkStockRow 1 1 (some 5), mkStockRow 1 2 (some 6)]

def dfC6 : List StockRow := [mkStockRow 1 1 (some 5), mkStockRow 1 2 (some 6)]

def dfC9 : List StockRow := [mkStockRow 1 1 (some 5)]

def gC9 : BatchGroup := ⟨1, 1, 1, 9, 1, some 5⟩

def netOkAll : Net := ⟨fun _ => CreateOutcome.ok 1, fun _ => RetailOutcome.ok⟩

/-- A record with a present invoice id and an unparseable destination
warehouse id. -/
def rowC8 : DeliveryRow := ⟨Cell.num 5, Cell.str "abc"⟩

/-- A record with a missing destination warehouse id. -/
def rowC8W : DeliveryRow := ⟨Cell.num 5, Cell.na⟩

def netC8 : Nat → NotifyNet := fun _ => NotifyNet.status 200

theorem qadd_eq_add (a b : ℚ) : qadd a b = a + b := by
  rw [Rat.add_def']; rfl

theorem qsum_eq_sum (l : List ℚ) : qsum l = l.sum := by
  induction l with
  | nil => rfl
  | cons a l ih => simp [qsum, List.foldr] at ih ⊢; rw [qadd_eq_add, ih]

theorem insLe_perm (le : α → α → Bool) (x : α) (l : List α) :
    (insLe le x l).Perm (x :: l) := by
  induction l with
  | nil => exact List.Perm.refl _
  | cons y ys ih =>
    by_cases h : le y x = true
    · simpa [insLe, h] using ((ih.cons y).trans (List.Perm.swap x y ys))
    · simp [insLe, h]

theorem sortLe_perm (le : α → α → Bool) (l : List α) :
    (sortLe le l).Perm l := by
  induction l with
  | nil => exact List.Perm.refl _
  | cons x xs ih => exact (insLe_perm le x (sortLe le xs)).trans (ih.cons x)

theorem mem_insLe {le : α → α → Bool} {x z : α} {l : List α}
    (h : z ∈ insLe le x l) : z = x ∨ z ∈ l := by
  have := (insLe_perm le x l).mem_iff.mp h
  simpa using this

theorem insLe_pairwise {le : α → α → Bool}
    (htot : ∀ a b, le a b = true ∨ le b a = true)
    (htr : ∀ a b c, le a b = true → le b c = true → le a c = true)
    {x : α} {l : List α} (hl : l.Pairwise (fun a b => le a b = true)) :
    (insLe le x l).Pairwise (fun a b => le a b = true) := by
  induction l with
  | nil => simp [insLe]
  | cons y ys ih =>
    rcases hl with _ | ⟨hy, hys⟩
    by_cases h : le y x = true
    · simp only [insLe, h, if_true]
      refine List.Pairwise.cons ?_ (ih hys)
      intro z hz
      rcases mem_insLe hz with rfl | hz
      · exact h
      · exact hy z hz
    · have hxy : le x y = true := (htot x y).resolve_right h
      simp only [insLe, h, if_false]
      refine List.Pairwise.cons ?_ (List.Pairwise.cons hy hys)
      intro z hz
      rcases List.mem_cons.mp hz with rfl | hz
      · exact hxy
      · exact htr x y z hxy (hy z hz)

theorem sortLe_pairwise {le : α → α → Bool}
    (htot : ∀ a b, le a b = true ∨ le b a = true)
    (htr : ∀ a b c, le a b = true → le b c = true → le a c = true)
    (l : List α) :
    (sortLe le l).Pairwise (fun a b => le a b = true) := by
  induction l with
  | nil => simp [sortLe]
  | cons x xs ih => exact insLe_pairwise htot htr ih

theorem fifoLe_total (a b : StockRow) :
    fifoLe a b = true ∨ fifoLe b a = true := by
  simp only [fifoLe, decide_eq_true_eq]
  omega

theorem fifoLe_trans (a b c : StockRow) :
    fifoLe a b = true → fifoLe b c = true → fifoLe a c = true := by
  simp only [fifoLe, decide_eq_true_eq]
  omega

theorem placeLoop_zero_rem (cap : Int) (g : BatchGroup) (fuel : Nat)
    (inv : List InvoiceSpec) (cur : List InvoiceLine) (ctr : Nat) :
    placeLoop cap g fuel 0 inv cur ctr = some (inv, cur, ctr) := by
  rw [placeLoop.eq_def]; simp

/-- With a positive remaining quantity and a not-yet-full current
invoice, one iteration of the `while` loop places the whole quantity
as a single line and stops; the result does not depend on the
remaining fuel. -/
theorem placeLoop_succ_pos (cap : Int) (g : BatchGroup) (fuel : Nat) (q : ℚ)
    (inv : List InvoiceSpec) (cur : List InvoiceLine) (ctr : Nat)
    (hq : 0 < q) (hlen : (cur.length : Int) < cap) :
    placeLoop cap g (fuel + 1) q inv cur ctr =
      if cap ≤ (cur.length : Int) + 1
      then some (inv ++ [mkSpec ctr g (cur ++ [⟨g.batchId, q⟩])], [], ctr + 1)
      else some (inv, cur ++ [⟨g.batchId, q⟩], ctr) := by
  have hunf : placeLoop cap g (fuel + 1) q inv cur ctr =
      if ¬ 0 < q then some (inv, cur, ctr)
      else
        if 0 < cap - (cur.length : Int) then
          (if cap ≤ ((cur ++ [(⟨g.batchId, q⟩ : InvoiceLine)]).length : Int) then
            placeLoop cap g fuel 0 (inv ++ [mkSpec ctr g (cur ++ [⟨g.batchId, q⟩])]) [] (ctr + 1)
          else placeLoop cap g fuel 0 inv (cur ++ [⟨g.batchId, q⟩]) ctr)
        else
          (if cur.isEmpty then placeLoop cap g fuel q inv cur ctr
           else placeLoop cap g fuel q (inv ++ [mkSpec ctr g cur]) [] (ctr + 1)) := rfl
  rw [hunf, if_neg (not_not_intro hq), if_pos (by omega : (0:Int) < cap - (cur.length : Int))]
  have hlen2 : ((cur ++ [(⟨g.batchId, q⟩ : InvoiceLine)]).length : Int) = (cur.length : Int) + 1 := by
    simp
  by_cases hfill : cap ≤ (cur.length : Int) + 1
  · rw [if_pos (by omega : cap ≤ ((cur ++ [(⟨g.batchId, q⟩ : InvoiceLine)]).length : Int)),
      placeLoop_zero_rem, if_pos hfill]
  · rw [if_neg (by omega : ¬ cap ≤ ((cur ++ [(⟨g.batchId, q⟩ : InvoiceLine)]).length : Int)),
      placeLoop_zero_rem, if_neg hfill]

/-- With `items_per_invoice ≤ 0` and an empty open invoice the
`while` loop makes no progress: it fails for every fuel, i.e. it
never terminates. -/
theorem placeLoop_diverge (cap : Int) (g : BatchGroup) (hcap : cap ≤ 0) (q : ℚ) (hq : 0 < q) :
    ∀ (fuel : Nat) (inv : List InvoiceSpec) (ctr : Nat),
      placeLoop cap g fuel q inv [] ctr = none := by
  intro fuel
  induction fuel with
  | zero =>
    intro inv ctr
    rw [placeLoop.eq_def]
    simp [hq]
  | succ fuel ih =>
    intro inv ctr
    have hunf : placeLoop cap g (fuel + 1) q inv [] ctr =
        if ¬ 0 < q then some (inv, [], ctr)
        else
          if 0 < cap - (([] : List InvoiceLine).length : Int) then
            (if cap ≤ (([] ++ [(⟨g.batchId, q⟩ : InvoiceLine)]).length : Int) then
              placeLoop cap g fuel 0 (inv ++ [mkSpec ctr g ([] ++ [⟨g.batchId, q⟩])]) [] (ctr + 1)
            else placeLoop cap g fuel 0 inv ([] ++ [⟨g.batchId, q⟩]) ctr)
          else
            (if ([] : List InvoiceLine).isEmpty then placeLoop cap g fuel q inv [] ctr
             else placeLoop cap g fuel q (inv ++ [mkSpec ctr g []]) [] (ctr + 1)) := rfl
    rw [hunf, if_neg (not_not_intro hq),
      if_neg (by simp; omega : ¬ (0:Int) < cap - (([] : List InvoiceLine).length : Int))]
    simpa using ih inv ctr

theorem processGroups_spec (cap : Int) (hcap : 1 ≤ cap) :
    ∀ (gs : List BatchGroup) (inv : List InvoiceSpec) (cur : List InvoiceLine) (ctr : Nat),
      (∀ g ∈ gs, 0 < g.countPu) → (cur.length : Int) < cap →
      ∃ ns cur',
        processGroups cap gs (inv, cur, ctr) = some (inv ++ ns, cur', ctr + ns.length) ∧
        (∀ s ∈ ns, (s.lines.length : Int) = cap) ∧ ((cur'.length : Int) < cap) ∧
        (ns.map (fun s => s.lines)).flatten ++ cur' = cur ++ gs.map groupLine := by
  intro gs
  induction gs with
  | nil =>
    intro inv cur ctr _ hlen
    exact ⟨[], cur, by simp [processGroups], by simp, hlen, by simp⟩
  | cons g rest ih =>
    intro inv cur ctr hpos hlen
    have hq : 0 < g.countPu := hpos g (by simp)
    have hstep : placeLoop cap g 2 g.countPu inv cur ctr =
        if cap ≤ (cur.length : Int) + 1
        then some (inv ++ [mkSpec ctr g (cur ++ [⟨g.batchId, g.countPu⟩])], [], ctr + 1)
        else some (inv, cur ++ [⟨g.batchId, g.countPu⟩], ctr) :=
      placeLoop_succ_pos cap g 1 g.countPu inv cur ctr hq hlen
    have hposR : ∀ g' ∈ rest, 0 < g'.countPu := fun g' hg' => hpos g' (by simp [hg'])
    by_cases hfill : cap ≤ (cur.length : Int) + 1
    · rw [if_pos hfill] at hstep
      have hrec : processGroups cap (g :: rest) (inv, cur, ctr)
          = processGroups cap rest
              (inv ++ [mkSpec ctr g (cur ++ [⟨g.batchId, g.countPu⟩])], [], ctr + 1) := by
        simp [processGroups, hstep]
      obtain ⟨ns', cur', hrun, hfull, hlen', hjoin⟩ :=
        ih (inv ++ [mkSpec ctr g (cur ++ [⟨g.batchId, g.countPu⟩])]) [] (ctr + 1) hposR
          (by simpa using hcap)
      refine ⟨mkSpec ctr g (cur ++ [⟨g.batchId, g.countPu⟩]) :: ns', cur', ?_, ?_, hlen', ?_⟩
      · rw [hrec, hrun]
        have h1 : (inv ++ [mkSpec ctr g (cur ++ [⟨g.batchId, g.countPu⟩])]) ++ ns'
            = inv ++ mkSpec ctr g (cur ++ [⟨g.batchId, g.countPu⟩]) :: ns' := by simp
        have h2 : ctr + 1 + ns'.length
            = ctr + (mkSpec ctr g (cur ++ [⟨g.batchId, g.countPu⟩]) :: ns').length := by
          simp; omega
        rw [h1, h2]
      · intro s hs
        rcases List.mem_cons.mp hs with rfl | hs
        · simp [mkSpec]
          omega
        · exact hfull s hs
      · simp only [List.map_cons, List.flatten_cons, List.append_assoc, hjoin]
        simp [mkSpec, groupLine]
    · rw [if_neg hfill] at hstep
      have hrec : processGroups cap (g :: rest) (inv, cur, ctr)
          = processGroups cap rest (inv, cur ++ [⟨g.batchId, g.countPu⟩], ctr) := by
        simp [processGroups, hstep]
      have hlen2 : ((cur ++ [(⟨g.batchId, g.countPu⟩ : InvoiceLine)]).length : Int) < cap := by
        simp
        omega
      obtain ⟨ns', cur', hrun, hfull, hlen', hjoin⟩ :=
        ih inv (cur ++ [⟨g.batchId, g.countPu⟩]) ctr hposR hlen2
      refine ⟨ns', cur', by rw [hrec, hrun], hfull, hlen', ?_⟩
      rw [hjoin]
      simp [groupLine]

theorem mem_dfSorted {df : List StockRow} {r : StockRow} :
    r ∈ dfSorted df ↔ r ∈ dfFiltered df :=
  (sortLe_perm fifoLe (dfFiltered df)).mem_iff

theorem mem_groupKeys_iff {rows : List StockRow} {k : GKey} :
    k ∈ groupKeys rows ↔ ∃ r ∈ rows, groupKey r = k := by
  unfold groupKeys
  rw [(sortLe_perm keyLe _).mem_iff, List.mem_dedup, List.mem_map]

theorem groupKeys_nodup (rows : List StockRow) : (groupKeys rows).Nodup :=
  (sortLe_perm keyLe _).nodup_iff.mpr (List.nodup_dedup _)

theorem rowKeep_pos {r : StockRow} (h : rowKeep r = true) : 0 < qtyOf r := by
  simp only [rowKeep, Bool.and_eq_true] at h
  rcases h with ⟨h1, _⟩
  unfold quantityPos at h1
  cases hc : r.countPu with
  | none => rw [hc] at h1; cases h1
  | some q =>
    rw [hc] at h1
    have : 0 < q := of_decide_eq_true h1
    simpa [qtyOf, hc]

/-- A `BatchGroup` with non-positive aggregated quantity cannot occur:
every group is a non-empty sum of filtered (positive) quantities. -/
theorem batchGroups_pos (df : List StockRow) :
    ∀ g ∈ batchGroupsOf df, 0 < g.countPu := by
  intro g hg
  unfold batchGroupsOf buildGroups at hg
  rcases List.mem_map.mp hg with ⟨k, hk, rfl⟩
  rcases mem_groupKeys_iff.mp hk with ⟨r, hr, hkey⟩
  have hrg : r ∈ groupRows (dfSorted df) k := by
    unfold groupRows
    exact List.mem_filter.mpr ⟨hr, by simp [hkey]⟩
  have hpos : ∀ x ∈ (groupRows (dfSorted df) k).map qtyOf, 0 < x := by
    intro x hx
    rcases List.mem_map.mp hx with ⟨r', hr', rfl⟩
    have : r' ∈ dfFiltered df := by
      unfold groupRows at hr'
      exact mem_dfSorted.mp (List.mem_filter.mp hr').1
    exact rowKeep_pos (List.mem_filter.mp this).2
  have hne : (groupRows (dfSorted df) k).map qtyOf ≠ [] := by
    intro hnil
    exact absurd (List.mem_map_of_mem qtyOf hrg) (by simp [hnil])
  show 0 < aggQuantity (groupRows (dfSorted df) k)
  unfold aggQuantity
  rw [qsum_eq_sum]
  exact List.sum_pos _ hpos hne

theorem getD_lt_mem : ∀ (l : List α) (i : Nat) (d : α), i < l.length → l.getD i d ∈ l := by
  intro l
  induction l with
  | nil => intro i d h; simp at h
  | cons a l ih =>
    intro i d h
    cases i with
    | zero => simp
    | succ i =>
      have := ih i d (by simpa using Nat.lt_of_succ_lt_succ h)
      simpa using Or.inr this

theorem getD_append_lt : ∀ (l l' : List α) (i : Nat) (d : α), i < l.length →
    (l ++ l').getD i d = l.getD i d := by
  intro l
  induction l with
  | nil => intro l' i d h; simp at h
  | cons a l ih =>
    intro l' i d h
    cases i with
    | zero => simp
    | succ i => simpa using ih l' i d (by simpa using Nat.lt_of_succ_lt_succ h)

theorem getD_take_lt : ∀ (l : List α) (k i : Nat) (d : α), i < k →
    (l.take k).getD i d = l.getD i d := by
  intro l
  induction l with
  | nil => intro k i d _; simp
  | cons a l ih =>
    intro k i d h
    cases k with
    | zero => simp at h
    | succ k =>
      cases i with
      | zero => simp
      | succ i => simpa using ih k i d (Nat.lt_of_succ_lt_succ h)

theorem packProp_take {cap : Int} {specs : List InvoiceSpec} (h : packProp cap specs)
    (k : Nat) : packProp cap (specs.take k) := by
  refine ⟨fun s hs => h.1 s (List.mem_of_mem_take hs), fun i hi => ?_⟩
  rw [List.length_take] at hi
  have hik : i + 1 ≤ k := le_of_lt (lt_of_lt_of_le hi (min_le_left _ _))
  have hil : i + 1 < specs.length := lt_of_lt_of_le hi (min_le_right _ _)
  rw [getD_take_lt specs k i default (by omega)]
  exact h.2 i hil

theorem packProp_applyLimit {cap : Int} {specs : List InvoiceSpec} (h : packProp cap specs)
    (maxInv : Option Int) : packProp cap (applyLimit maxInv specs) := by
  cases maxInv with
  | none => exact h
  | some n =>
    by_cases hn : n = 0
    · simpa [applyLimit, hn] using h
    · have he : applyLimit (some n) specs = pySlice n specs := by simp [applyLimit, hn]
      rw [he]
      unfold pySlice
      by_cases h0 : (0:Int) ≤ n
      · rw [if_pos h0]; exact packProp_take h _
      · rw [if_neg h0]; exact packProp_take h _

/-- Central description of an untruncated `prepare_invoices` run with
`items_per_invoice ≥ 1`: it succeeds, the concatenation of all
produced lines is exactly one full-quantity line per `BatchGroup` in
group order, and the line cap shape holds. -/
theorem prepare_none_spec (ctr0 : Nat) (df : List StockRow) (cap : Int) (hcap : 1 ≤ cap) :
    ∃ specs, prepare_invoices ctr0 df cap none = some specs ∧
      (specs.map (fun s => s.lines)).flatten = (batchGroupsOf df).map groupLine ∧
      packProp cap specs := by
  by_cases hemp : (dfFiltered df).isEmpty
  · refine ⟨[], by simp [prepare_invoices, hemp], ?_, by simp [packProp]⟩
    have hnil : dfFiltered df = [] := by simpa using hemp
    simp [batchGroupsOf, dfSorted, hnil, buildGroups, groupKeys, sortLe]
  · obtain ⟨ns, cur', hrun, hfull, hlen', hjoin⟩ :=
      processGroups_spec cap hcap (batchGroupsOf df) [] [] ctr0 (batchGroups_pos df)
        (by simpa using hcap)
    simp only [List.nil_append] at hrun hjoin
    by_cases hcur : cur'.isEmpty
    · have hnil : cur' = [] := by simpa using hcur
      refine ⟨ns, ?_, ?_, ?_, ?_⟩
      · simp [prepare_invoices, hemp, hrun, hcur, applyLimit]
      · rw [← hjoin, hnil, List.append_nil]
      · exact fun s hs => le_of_eq (hfull s hs)
      · intro i hi
        exact hfull _ (getD_lt_mem ns i default (by omega))
    · refine ⟨ns ++ [mkSpec (ctr0 + ns.length) ((batchGroupsOf df).getLastD dummyGroup) cur'],
        ?_, ?_, ?_, ?_⟩
      · simp [prepare_invoices, hemp, hrun, hcur, applyLimit]
      · simp only [List.map_append, List.flatten_append, List.map_cons, List.map_nil,
          List.flatten_cons, List.flatten_nil, mkSpec, List.append_nil]
        exact hjoin
      · intro s hs
        rcases List.mem_append.mp hs with hs | hs
        · exact le_of_eq (hfull s hs)
        · have : s = mkSpec (ctr0 + ns.length) ((batchGroupsOf df).getLastD dummyGroup) cur' := by
            simpa using hs
          rw [this]
          exact le_of_lt hlen'
      · intro i hi
        simp only [List.length_append, List.length_cons, List.length_nil] at hi
        have hilt : i < ns.length := by omega
        rw [getD_append_lt ns _ i default hilt]
        exact hfull _ (getD_lt_mem ns i default hilt)

/-- Truncation factors out: a `prepare_invoices` run with any
`max_invoices` is the untruncated run with the final
`invoices[:max_invoices]` slice applied. -/
theorem prepare_eq_applyLimit (ctr0 : Nat) (df : List StockRow) (cap : Int)
    (maxInv : Option Int) :
    prepare_invoices ctr0 df cap maxInv
      = (prepare_invoices ctr0 df cap none).map (applyLimit maxInv) := by
  unfold prepare_invoices
  by_cases hemp : (dfFiltered df).isEmpty
  · simp only [hemp, if_true, Option.map_some]
    cases maxInv with
    | none => rfl
    | some n =>
      unfold applyLimit pySlice
      by_cases hn : n ≠ 0
      · simp [hn]
      · simp [hn]
  · simp only [hemp, if_false]
    cases hpg : processGroups cap (batchGroupsOf df) ([], [], ctr0) with
    | none => rfl
    | some st =>
      rcases st with ⟨invoices, current, ctr⟩
      simp [applyLimit]

theorem filter_of_map (p : β → Bool) (f : α → β) :
    ∀ l : List α, (l.map f).filter p = (l.filter (fun x => p (f x))).map f := by
  intro l
  induction l with
  | nil => simp
  | cons a l ih =>
    by_cases h : p (f a) = true
    · simp [List.filter_cons, h, ih]
    · simp [List.filter_cons, h, ih]

theorem sum_ite_not_mem {κ : Type _} [DecidableEq κ] (a : κ) (c : ℚ) :
    ∀ K : List κ, a ∉ K → (K.map (fun k => if a = k then c else 0)).sum = 0 := by
  intro K
  induction K with
  | nil => simp
  | cons k K ih =>
    intro h
    have h1 : a ≠ k := fun hc => h (by simp [hc])
    have h2 : a ∉ K := fun hc => h (by simp [hc])
    simp [h1, ih h2]

theorem sum_ite_mem {κ : Type _} [DecidableEq κ] (a : κ) (c : ℚ) :
    ∀ K : List κ, K.Nodup → (K.map (fun k => if a = k then c else 0)).sum
      = if a ∈ K then c else 0 := by
  intro K
  induction K with
  | nil => simp
  | cons k K ih =>
    intro hnd
    rcases List.nodup_cons.mp hnd with ⟨hk, hK⟩
    by_cases hak : a = k
    · subst hak
      simp [sum_ite_not_mem a c K hk]
    · simp only [List.map_cons, List.sum_cons, if_neg hak, ih hK, zero_add]
      have : (a ∈ k :: K) ↔ (a ∈ K) := by simp [hak]
      by_cases hm : a ∈ K
      · rw [if_pos hm, if_pos (this.mpr hm)]
      · rw [if_neg hm, if_neg (fun hc => hm (this.mp hc))]

/-- Summing group-wise sums over the distinct keys equals summing over
the rows directly (for any key predicate `φ`). -/
theorem sum_fiber {α κ : Type _} [DecidableEq κ] (key : α → κ) (f : α → ℚ) (φ : κ → Bool) :
    ∀ (rows : List α) (keys : List κ), keys.Nodup → (∀ r ∈ rows, key r ∈ keys) →
      ((keys.filter φ).map
          (fun k => ((rows.filter (fun x => decide (key x = k))).map f).sum)).sum
        = ((rows.filter (fun x => φ (key x))).map f).sum := by
  intro rows
  induction rows with
  | nil =>
    intro keys _ _
    simp
  | cons r rs ih =>
    intro keys hnd hcomp
    have hmem : key r ∈ keys := hcomp r (by simp)
    have hpt : ∀ k ∈ keys.filter φ,
        ((List.filter (fun x => decide (key x = k)) (r :: rs)).map f).sum
          = (if key r = k then f r else 0)
            + ((rs.filter (fun x => decide (key x = k))).map f).sum := by
      intro k _
      by_cases h : key r = k
      · simp [List.filter_cons, h]
      · simp [List.filter_cons, h]
    rw [List.map_congr_left hpt, List.sum_map_add,
      sum_ite_mem (key r) (f r) (keys.filter φ) (hnd.filter φ),
      ih keys hnd (fun x hx => hcomp x (by simp [hx]))]
    by_cases hφ : φ (key r) = true
    · have hmf : key r ∈ keys.filter φ := List.mem_filter.mpr ⟨hmem, hφ⟩
      rw [if_pos hmf]
      simp [List.filter_cons, hφ]
    · rw [if_neg (fun hc => hφ ((List.mem_filter.mp hc).2)), zero_add]
      simp [List.filter_cons, hφ]

/-- Per batch id, the aggregated groups carry exactly the filtered
rows' quantity. -/
theorem groups_sum_eq (df : List StockRow) (b : Int) :
    (((batchGroupsOf df).filter (fun g => decide (g.batchId = b))).map
      (fun g => g.countPu)).sum
    = (((dfFiltered df).filter (fun r => decide (r.batchId = b))).map qtyOf).sum := by
  unfold batchGroupsOf buildGroups
  rw [filter_of_map, List.map_map]
  have hpred : (fun k => decide ((mkGroup (dfSorted df) k).batchId = b))
      = (fun k : GKey => decide (k.batchId = b)) := rfl
  have hfun : ((fun g : BatchGroup => g.countPu) ∘ (mkGroup (dfSorted df)))
      = fun k => ((List.filter (fun x => decide (groupKey x = k)) (dfSorted df)).map qtyOf).sum := by
    funext k
    show aggQuantity (groupRows (dfSorted df) k) = _
    unfold aggQuantity groupRows
    rw [qsum_eq_sum]
  rw [hpred, hfun,
    sum_fiber groupKey qtyOf (fun k => decide (k.batchId = b)) (dfSorted df)
      (groupKeys (dfSorted df)) (groupKeys_nodup _)
      (fun r hr => mem_groupKeys_iff.mpr ⟨r, hr, rfl⟩)]
  exact ((((sortLe_perm fifoLe (dfFiltered df)).filter _).map qtyOf).sum_eq)

/-- With a non-positive line cap and at least one surviving row,
`prepare_invoices` never terminates (the model reports `none`). -/
theorem prepare_nonpos_none (ctr0 : Nat) (df : List StockRow) (cap : Int)
    (maxInv : Option Int) (hcap : cap ≤ 0) (hne : (dfFiltered df).isEmpty = false) :
    prepare_invoices ctr0 df cap maxInv = none := by
  have hrows : dfSorted df ≠ [] := by
    intro h
    have hlen := (sortLe_perm fifoLe (dfFiltered df)).length_eq
    unfold dfSorted at h
    rw [h] at hlen
    have : dfFiltered df = [] := List.length_eq_zero.mp hlen.symm
    rw [this] at hne
    simp at hne
  obtain ⟨r, hr⟩ : ∃ r, r ∈ dfSorted df := by
    cases hs : dfSorted df with
    | nil => exact absurd hs hrows
    | cons a l => exact ⟨a, by simp [hs]⟩
  have hk : groupKey r ∈ groupKeys (dfSorted df) := mem_groupKeys_iff.mpr ⟨r, hr, rfl⟩
  cases hbg : batchGroupsOf df with
  | nil =>
    exfalso
    unfold batchGroupsOf buildGroups at hbg
    rw [List.map_eq_nil_iff] at hbg
    rw [hbg] at hk
    simp at hk
  | cons g rest =>
    have hgpos : 0 < g.countPu := batchGroups_pos df g (by simp [hbg])
    unfold prepare_invoices
    rw [if_neg (by simp [hne]), hbg]
    have hdiv : placeLoop cap g 2 g.countPu [] [] ctr0 = none :=
      placeLoop_diverge cap g hcap g.countPu hgpos 2 [] ctr0
    simp [processGroups, hdiv]

theorem notifyStep_skip (st : RunSummary) (r : DeliveryRow) (resp : NotifyNet) :
    (notifyStep st r resp).skipped_count = st.skipped_count := by
  unfold notifyStep
  cases pyIntOfCell
      (if r.id.isna || r.destinationWarehouseId.isna || r.destinationWarehouseId.isZeroLike
       then Cell.num fallbackWarehouseId else r.destinationWarehouseId) with
  | none => rfl
  | some w =>
    cases resp with
    | exc m => rfl
    | status c =>
      by_cases hc : c = 200
      · simp [hc]
      · simp [hc]

theorem notifyStep_att (st : RunSummary) (r : DeliveryRow) (resp : NotifyNet) :
    (notifyStep st r resp).attempts = st.attempts + 1 := by
  unfold notifyStep
  cases pyIntOfCell
      (if r.id.isna || r.destinationWarehouseId.isna || r.destinationWarehouseId.isZeroLike
       then Cell.num fallbackWarehouseId else r.destinationWarehouseId) with
  | none => rfl
  | some w =>
    cases resp with
    | exc m => rfl
    | status c =>
      by_cases hc : c = 200
      · simp [hc]
      · simp [hc]

theorem notifyStep_req_mono {st : RunSummary} {r : DeliveryRow} {resp : NotifyNet}
    {x : Cell × Int} (hx : x ∈ st.requests) : x ∈ (notifyStep st r resp).requests := by
  unfold notifyStep
  cases pyIntOfCell
      (if r.id.isna || r.destinationWarehouseId.isna || r.destinationWarehouseId.isZeroLike
       then Cell.num fallbackWarehouseId else r.destinationWarehouseId) with
  | none => exact hx
  | some w =>
    cases resp with
    | exc m => simp [hx]
    | status c =>
      by_cases hc : c = 200
      · simp [hc, hx]
      · simp [hc, hx]

theorem notifyStep_fallback {st : RunSummary} {r : DeliveryRow} {resp : NotifyNet}
    (hcond : (r.id.isna || r.destinationWarehouseId.isna
      || r.destinationWarehouseId.isZeroLike) = true) :
    (r.id, fallbackWarehouseId) ∈ (notifyStep st r resp).requests := by
  unfold notifyStep
  rw [if_pos hcond]
  show (r.id, fallbackWarehouseId) ∈
    (match pyIntOfCell (Cell.num fallbackWarehouseId) with
     | none => { st with attempts := st.attempts + 1, error_count := st.error_count + 1 }
     | some w =>
       let st2 := { st with attempts := st.attempts + 1,
                            requests := st.requests ++ [(r.id, w)] }
       match resp with
       | NotifyNet.exc _ => { st2 with error_count := st2.error_count + 1 }
       | NotifyNet.status c =>
         if c = 200 then { st2 with success_count := st2.success_count + 1 }
         else { st2 with error_count := st2.error_count + 1 }).requests
  cases resp with
  | exc m => simp [pyIntOfCell]
  | status c =>
    by_cases hc : c = 200
    · simp [pyIntOfCell, hc]
    · simp [pyIntOfCell, hc]

theorem runFrom_skip (net : Nat → NotifyNet) :
    ∀ (rows : List DeliveryRow) (i : Nat) (st : RunSummary),
      (runFrom net rows i st).skipped_count = st.skipped_count := by
  intro rows
  induction rows with
  | nil => intro i st; rfl
  | cons r rs ih =>
    intro i st
    show (runFrom net rs (i + 1) (notifyStep st r (net i))).skipped_count = _
    rw [ih, notifyStep_skip]

theorem runFrom_att (net : Nat → NotifyNet) :
    ∀ (rows : List DeliveryRow) (i : Nat) (st : RunSummary),
      (runFrom net rows i st).attempts = st.attempts + rows.length := by
  intro rows
  induction rows with
  | nil => intro i st; simp [runFrom]
  | cons r rs ih =>
    intro i st
    show (runFrom net rs (i + 1) (notifyStep st r (net i))).attempts = _
    rw [ih, notifyStep_att]
    simp
    omega

theorem runFrom_req_mono (net : Nat → NotifyNet) :
    ∀ (rows : List DeliveryRow) (i : Nat) (st : RunSummary) (x : Cell × Int),
      x ∈ st.requests → x ∈ (runFrom net rows i st).requests := by
  intro rows
  induction rows with
  | nil => intro i st x hx; exact hx
  | cons r rs ih =>
    intro i st x hx
    exact ih (i + 1) (notifyStep st r (net i)) x (notifyStep_req_mono hx)

theorem runFrom_fallback (net : Nat → NotifyNet) :
    ∀ (rows : List DeliveryRow) (i : Nat) (st : RunSummary) (r : DeliveryRow),
      r ∈ rows →
      (r.id.isna || r.destinationWarehouseId.isna
        || r.destinationWarehouseId.isZeroLike) = true →
      (r.id, fallbackWarehouseId) ∈ (runFrom net rows i st).requests := by
  intro rows
  induction rows with
  | nil => intro i st r hr; simp at hr
  | cons r' rs ih =>
    intro i st r hr hcond
    rcases List.mem_cons.mp hr with rfl | hr
    · exact runFrom_req_mono net rs (i + 1) (notifyStep st r (net i)) _
        (notifyStep_fallback hcond)
    · exact ih (i + 1) (notifyStep st r' (net i)) r hr hcond

/-- C1: for every input row set and every `maxLinesPerInvoice ≥ 1`,
the concatenation of the lines of the untruncated `prepare_invoices`
output is exactly one line per aggregated `BatchGroup`, in group
order, each carrying the group's full summed quantity — so every
group's quantity sits in exactly one line of exactly one invoice and
no group is split across lines or invoices. -/
theorem prepare_no_split (ctr0 : Nat) (df : List StockRow) (cap : Int) (hcap : 1 ≤ cap) :
    ∃ specs, prepare_invoices ctr0 df cap none = some specs ∧
      (specs.map (fun s => s.lines)).flatten = (batchGroupsOf df).map groupLine := by
  obtain ⟨specs, h1, h2, _⟩ := prepare_none_spec ctr0 df cap hcap
  exact ⟨specs, h1, h2⟩

theorem prepare_no_split_witness :
    (1 : Int) ≤ 2 ∧
      ∃ specs, prepare_invoices 1 exampleDfC1 2 none = some specs ∧
        (specs.map (fun s => s.lines)).flatten = (batchGroupsOf exampleDfC1).map groupLine :=
  ⟨by decide, prepare_no_split 1 exampleDfC1 2 (by decide)⟩

/-- C2: for every input row set, `maxLinesPerInvoice ≥ 1` and any
`max_invoices`, every produced invoice has at most
`maxLinesPerInvoice` lines and every invoice except possibly the last
has exactly that many. -/
theorem prepare_line_cap (ctr0 : Nat) (df : List StockRow) (cap : Int)
    (maxInv : Option Int) (specs : List InvoiceSpec) (hcap : 1 ≤ cap)
    (h : prepare_invoices ctr0 df cap maxInv = some specs) : packProp cap specs := by
  obtain ⟨specs0, h0, _, hpack⟩ := prepare_none_spec ctr0 df cap hcap
  rw [prepare_eq_applyLimit, h0,
    show (some specs0).map (applyLimit maxInv) = some (applyLimit maxInv specs0) from rfl] at h
  have hs := Option.some.inj h
  rw [← hs]
  exact packProp_applyLimit hpack maxInv

theorem prepare_line_cap_witness :
    packProp 2 [⟨1, 9, 1, [⟨1, 1⟩, ⟨2, 1⟩]⟩, ⟨2, 9, 1, [⟨3, 1⟩]⟩] :=
  prepare_line_cap 1 exampleDfC2 2 none _ (by decide) (by decide)

/-- C3 fails on the code: `groupby` re-sorts the groups by
`(batchId, patId, warehouseId, contractorId)`, discarding the FIFO
sort.  On `fifoDfC3` the output walks batch 1 (validity 10) before
batch 2 (validity 5), so the `(validFrom, batchId)` keys read
`(10,1), (5,2)` — a decreasing sequence, against both the claim and
the function's own FIFO docstring. -/
theorem prepare_fifo_violation :
    (batchGroupsOf fifoDfC3).map (fun g => (g.batchId, g.validFrom))
        = [(1, some 10), (2, some 5)]
    ∧ prepare_invoices 1 fifoDfC3 2 none = some [⟨1, 9, 1, [⟨1, 1⟩, ⟨2, 1⟩]⟩] :=
  ⟨by decide, by decide⟩

/-- C4 counterexample: the `NaT` row of `natDfC4` sorts after the
parseable row, not before it — `sort_values` defaults to
`na_position='last'`, so unparseable timestamps compare as the
maximum, not the minimum. -/
theorem sort_nat_first_cex :
    (dfSorted natDfC4).map (fun r => r.validFrom) = [some 5, none] ∧
      (dfSorted natDfC4).map (fun r => r.validFrom) ≠ [none, some 5] :=
  ⟨by decide, by decide⟩

/-- C4 amended: in the FIFO sort every row with an unparseable
validity timestamp sorts after every row with a parseable one (`NaT`
is the maximum): once a `NaT` row appears, every later row is
`NaT`. -/
theorem sort_unparseable_last (df : List StockRow) (i j : Nat)
    (hj : j < (dfSorted df).length) (hij : i ≤ j)
    (hi : ((dfSorted df).get ⟨i, Nat.lt_of_le_of_lt hij hj⟩).validFrom = none) :
    ((dfSorted df).get ⟨j, hj⟩).validFrom = none := by
  rcases Nat.lt_or_ge i j with hlt | hge
  · have hp := sortLe_pairwise fifoLe_total fifoLe_trans (dfFiltered df)
    have hrel := List.pairwise_iff_get.mp hp ⟨i, Nat.lt_of_le_of_lt hij hj⟩ ⟨j, hj⟩ hlt
    have hrel' : fifoLe ((dfSorted df).get ⟨i, Nat.lt_of_le_of_lt hij hj⟩)
        ((dfSorted df).get ⟨j, hj⟩) = true := hrel
    simp only [fifoLe, decide_eq_true_eq] at hrel'
    cases hvj : ((dfSorted df).get ⟨j, hj⟩).validFrom with
    | none => rfl
    | some t =>
      exfalso
      have h1 : vfRank ((dfSorted df).get ⟨i, Nat.lt_of_le_of_lt hij hj⟩) = 1 := by
        unfold vfRank
        rw [hi]
      have h2 : vfRank ((dfSorted df).get ⟨j, hj⟩) = 0 := by
        unfold vfRank
        rw [hvj]
      rw [h1, h2] at hrel'
      omega
  · obtain rfl : i = j := le_antisymm hij hge
    exact hi

theorem sort_unparseable_last_witness :
    ((dfSorted natDfC4W).get ⟨1, by decide⟩).validFrom = none :=
  sort_unparseable_last natDfC4W 0 1 (by decide) (by decide) (by decide)

/-- C5 counterexample: with line cap 1 and `max_invoices = 1` the
second invoice is truncated away, so batch 2's produced quantity is 0
while its filtered input quantity is 1 — truncation loses
quantity. -/
theorem conservation_truncation_cex :
    (prepare_invoices 1 dfC5 1 (some 1)).map (lineBatchSum 2) = some 0 ∧
      rowBatchSum 2 dfC5 = 1 :=
  ⟨by decide, by decide⟩

/-- C5 amended: whenever `prepare_invoices` is run without a
truncation limit (`max_invoices = None`) and returns a list, the
total `countPuSent` over all its lines with a given batch id equals
the summed filtered input quantity of that batch id — no quantity is
lost or duplicated before truncation. -/
theorem prepare_conservation (ctr0 : Nat) (df : List StockRow) (cap : Int) (b : Int)
    (specs : List InvoiceSpec) (h : prepare_invoices ctr0 df cap none = some specs) :
    lineBatchSum b specs = rowBatchSum b df := by
  by_cases hcap : 1 ≤ cap
  · obtain ⟨specs0, h0, hflat, _⟩ := prepare_none_spec ctr0 df cap hcap
    rw [h0] at h
    have hs := Option.some.inj h
    rw [← hs]
    unfold lineBatchSum rowBatchSum
    rw [qsum_eq_sum, qsum_eq_sum, hflat, filter_of_map, List.map_map]
    have h1 : (fun g : BatchGroup => decide ((groupLine g).batchId = b))
        = (fun g : BatchGroup => decide (g.batchId = b)) := rfl
    have h2 : ((fun ln : InvoiceLine => ln.countPuSent) ∘ groupLine)
        = (fun g : BatchGroup => g.countPu) := rfl
    rw [h1, h2, groups_sum_eq]
  · by_cases hemp : (dfFiltered df).isEmpty = true
    · have hnil : dfFiltered df = [] := by simpa using hemp
      have hsp : specs = [] := by
        unfold prepare_invoices at h
        rw [if_pos hemp] at h
        exact (Option.some.inj h).symm
      rw [hsp]
      unfold lineBatchSum rowBatchSum
      simp [hnil, qsum]
    · exfalso
      rw [prepare_nonpos_none ctr0 df cap none (by omega) (by simpa using hemp)] at h
      cases h

theorem prepare_conservation_witness :
    lineBatchSum 2 [⟨1, 9, 1, [⟨1, 1⟩]⟩, ⟨2, 9, 1, [⟨2, 1⟩]⟩] = rowBatchSum 2 dfC5 :=
  prepare_conservation 1 dfC5 1 2 _ (by decide)

/-- C6 counterexample: `max_invoices = 0` is finite but falsy
(`if max_invoices:`), so no truncation happens and the output length
is 2, violating "length ≤ N" at N = 0. -/
theorem truncation_zero_cex :
    (prepare_invoices 1 dfC6 1 (some 0)).map List.length = some 2 ∧ ¬ (2 : Int) ≤ 0 :=
  ⟨by decide, by decide⟩

/-- C6 amended: for every `max_invoices = N ≥ 1` the output is the
`take N` prefix of the untruncated list — whole invoices dropped from
the end only, never splitting one — and its length is at most `N`;
`N = 0` is treated as "no limit". -/
theorem prepare_truncation (ctr0 : Nat) (df : List StockRow) (cap : Int) (n : Int)
    (hn : 1 ≤ n) :
    (∀ specs0, prepare_invoices ctr0 df cap none = some specs0 →
      prepare_invoices ctr0 df cap (some n) = some (specs0.take n.toNat) ∧
        ((specs0.take n.toNat).length : Int) ≤ n) ∧
    prepare_invoices ctr0 df cap (some 0) = prepare_invoices ctr0 df cap none := by
  constructor
  · intro specs0 h0
    rw [prepare_eq_applyLimit ctr0 df cap (some n), h0]
    constructor
    · rw [show (some specs0).map (applyLimit (some n)) = some (applyLimit (some n) specs0) from rfl]
      congr 1
      have hn0 : n ≠ 0 := by omega
      simp [applyLimit, hn0, pySlice, (by omega : (0:Int) ≤ n)]
    · rw [List.length_take]
      omega
  · rw [prepare_eq_applyLimit ctr0 df cap (some 0)]
    cases h : prepare_invoices ctr0 df cap none with
    | none => rfl
    | some l => simp [applyLimit]

theorem prepare_truncation_witness :
    (prepare_invoices 1 dfC6 1 (some 1)
        = some (([⟨1, 9, 1, [⟨1, 1⟩]⟩, ⟨2, 9, 1, [⟨2, 1⟩]⟩] : List InvoiceSpec).take (1:Int).toNat) ∧
      ((([⟨1, 9, 1, [⟨1, 1⟩]⟩, ⟨2, 9, 1, [⟨2, 1⟩]⟩] : List InvoiceSpec).take (1:Int).toNat).length : Int) ≤ 1) :=
  (prepare_truncation 1 dfC6 1 1 (by decide)).1 _ (by decide)

/-- C7: for the same stock rows and configuration, dry run
(`execute = false`) returns exactly the invoice list live mode would
return with any network behaviour, performs zero network calls and
produces an empty results list. -/
theorem dry_run_equiv (df : List StockRow) (cap : Int) (maxInv : Option Int)
    (netA netB : Net) :
    (run_retail_write_off_service df cap maxInv false netA).map (fun t => t.1)
      = (run_retail_write_off_service df cap maxInv true netB).map (fun t => t.1)
    ∧ ∀ t, run_retail_write_off_service df cap maxInv false netA = some t →
        t.2.1 = [] ∧ t.2.2 = [] := by
  cases h : prepare_invoices 1 df cap maxInv with
  | none =>
    refine ⟨by simp [run_retail_write_off_service, h], fun t ht => ?_⟩
    simp [run_retail_write_off_service, h] at ht
  | some invoices =>
    by_cases he : invoices.isEmpty = true
    · refine ⟨by simp [run_retail_write_off_service, h, he], fun t ht => ?_⟩
      have h2 : run_retail_write_off_service df cap maxInv false netA = some ([], [], []) := by
        simp [run_retail_write_off_service, h, he]
      rw [h2] at ht
      obtain rfl := Option.some.inj ht
      exact ⟨rfl, rfl⟩
    · refine ⟨by simp [run_retail_write_off_service, h, he], fun t ht => ?_⟩
      have h2 : run_retail_write_off_service df cap maxInv false netA
          = some (invoices, [], []) := by
        simp [run_retail_write_off_service, h, he]
      rw [h2] at ht
      obtain rfl := Option.some.inj ht
      exact ⟨rfl, rfl⟩

theorem dry_run_equiv_witness :
    run_retail_write_off_service [] 2 none false netOkAll = some ([], [], []) ∧
      (([], [], []) : List InvoiceSpec × List SubmissionResult × List Request).2.1 = [] ∧
      (([], [], []) : List InvoiceSpec × List SubmissionResult × List Request).2.2 = [] :=
  ⟨by decide, (dry_run_equiv [] 2 none netOkAll netOkAll).2 ([], [], []) (by decide)⟩

/-- C8 counterexample: a record with a present invoice id and the
unparseable destination "abc" gets no fallback (the active condition
only checks `isna` and 0/'0'); `int("abc")` raises inside the payload
construction, so no notification is issued and the record is counted
as an error (1 error, 0 requests, 1 attempt, 0 skips). -/
theorem notify_unparseable_cex :
    InvoiceService.run [rowC8] netC8 = ⟨0, 1, 0, [], 1⟩ := by decide

/-- C8 amended: for every fetched record whose destination warehouse
id is missing or 0/'0' (or whose invoice id is missing — the code's
condition), the fallback warehouse id 1085300 is substituted and the
mark-delivered notification is issued for that record, and nothing is
counted as skipped.  Records with an unparseable (non-missing,
non-zero) destination id are not given the fallback: their `int()`
conversion raises before the POST and they are counted as errors. -/
theorem notify_fallback (rows : List DeliveryRow) (net : Nat → NotifyNet)
    (r : DeliveryRow) (hr : r ∈ rows)
    (hcond : (r.id.isna || r.destinationWarehouseId.isna
      || r.destinationWarehouseId.isZeroLike) = true) :
    (r.id, fallbackWarehouseId) ∈ (InvoiceService.run rows net).requests ∧
      (InvoiceService.run rows net).skipped_count = 0 := by
  unfold InvoiceService.run
  exact ⟨runFrom_fallback net rows 0 _ r hr hcond, runFrom_skip net rows 0 _⟩

theorem notify_fallback_witness :
    (Cell.num 5, fallbackWarehouseId) ∈ (InvoiceService.run [rowC8W] netC8).requests ∧
      (InvoiceService.run [rowC8W] netC8).skipped_count = 0 :=
  notify_fallback [rowC8W] netC8 rowC8W (by decide) (by decide)

/-- C9: `prepare_invoices` terminates exactly when the line cap is at
least 1 or no row survives filtering; moreover with a non-positive
cap the inner placement loop makes no progress on any group with
positive quantity — it fails for every fuel bound, i.e. it never
terminates. -/
theorem prepare_termination_iff (ctr0 : Nat) (df : List StockRow) (cap : Int)
    (maxInv : Option Int) :
    ((prepare_invoices ctr0 df cap maxInv).isSome ↔ (1 ≤ cap ∨ dfFiltered df = [])) ∧
    (cap ≤ 0 → ∀ (g : BatchGroup), 0 < g.countPu →
      ∀ (fuel : Nat) (inv : List InvoiceSpec) (ctr : Nat),
        placeLoop cap g fuel g.countPu inv [] ctr = none) := by
  constructor
  · constructor
    · intro hsome
      by_contra hc
      push_neg at hc
      obtain ⟨hcap, hne⟩ := hc
      have hne' : (dfFiltered df).isEmpty = false := by
        cases hb : (dfFiltered df).isEmpty
        · rfl
        · exact absurd (by simpa using hb) hne
      rw [prepare_nonpos_none ctr0 df cap maxInv (by omega) hne'] at hsome
      simp at hsome
    · intro h
      rcases h with hcap | hnil
      · rw [prepare_eq_applyLimit]
        obtain ⟨specs, hs, _, _⟩ := prepare_none_spec ctr0 df cap hcap
        rw [hs]
        simp
      · unfold prepare_invoices
        rw [if_pos (by simp [hnil])]
        simp
  · intro hcap g hg fuel inv ctr
    exact placeLoop_diverge cap g hcap g.countPu hg fuel inv ctr

theorem prepare_termination_iff_witness :
    (prepare_invoices 1 dfC9 2 none).isSome ∧
      placeLoop 0 gC9 5 gC9.countPu [] [] 1 = none :=
  ⟨(prepare_termination_iff 1 dfC9 2 none).1.mpr (Or.inl (by decide)),
   (prepare_termination_iff 1 dfC9 0 none).2 (by decide) gC9 (by decide) 5 [] 1⟩

/-- C10: the delivery notifier never skips a record — every fetched
row leads to exactly one `notify_delivered` attempt (also rows with a
missing invoice id, which just get the fallback warehouse id), and
the skipped count of the final summary is always zero. -/
theorem run_never_skips (rows : List DeliveryRow) (net : Nat → NotifyNet) :
    (InvoiceService.run rows net).attempts = rows.length ∧
      (InvoiceService.run rows net).skipped_count = 0 := by
  unfold InvoiceService.run
  refine ⟨?_, runFrom_skip net rows 0 _⟩
  rw [runFrom_att]
  simp
